import Mathlib

/-!
Verification of the wgpu compute runner example
(`examples/runners/wgpu/src/compute.rs`).

The development shallowly embeds the observable behaviour of
`start_internal`: input serialization, dispatch sizing, readback
extraction, the result-reducer loop and the timestamp arithmetic.
Machine integers are modelled as `Nat` with explicit `% 2 ^ w`
truncation where the Rust code can overflow or wrap.
-/

namespace ComputeRunner

/-- The workgroup size hard-coded in the dispatch (`compute.rs:140`). -/
def WORKGROUP_SIZE : Nat := 64

/-- Number of input elements of the actual program: `src_range = 1..2u32.pow(20)`
(`compute.rs:54-55`), so `src_range.len() = 2 ^ 20 - 1`. -/
def SRC_LEN : Nat := 2 ^ 20 - 1

/-- The `u32` overflow sentinel `u32::MAX` tested at `compute.rs:177`. -/
def U32_MAX : Nat := 2 ^ 32 - 1

/-- Modulus of `u32` arithmetic. -/
def U32_MOD : Nat := 2 ^ 32

/-- Modulus of `u64` arithmetic. -/
def U64_MOD : Nat := 2 ^ 64

/-- `u32::to_ne_bytes` (`compute.rs:60`): the four bytes of a `u32`,
native endianness modelled as little-endian byte order. -/
def toNeBytes (v : Nat) : List Nat :=
  [v % 2 ^ 8, v / 2 ^ 8 % 2 ^ 8, v / 2 ^ 16 % 2 ^ 8, v / 2 ^ 24 % 2 ^ 8]

/-- Input serialization (`compute.rs:57-62`): each `u32` value mapped through
`to_ne_bytes` and the byte arrays concatenated (`flat_map`). -/
def serializeU32s : List Nat → List Nat
  | [] => []
  | v :: rest => toNeBytes v ++ serializeU32s rest

/-- `u32::from_ne_bytes` (`compute.rs:165`) on one 4-byte chunk. -/
def fromNeBytes (b0 b1 b2 b3 : Nat) : Nat :=
  b0 + 2 ^ 8 * b1 + 2 ^ 16 * b2 + 2 ^ 24 * b3

/-- Readback decoding (`compute.rs:163-166`): `data.chunks_exact(4)` mapped
through `u32::from_ne_bytes`; an incomplete trailing chunk is dropped. -/
def deserializeU32s : List Nat → List Nat
  | b0 :: b1 :: b2 :: b3 :: rest =>
      fromNeBytes b0 b1 b2 b3 :: deserializeU32s rest
  | _ => []

/-- `u64::from_ne_bytes` (`compute.rs:169`) on one 8-byte chunk. -/
def fromNeBytes64 (b0 b1 b2 b3 b4 b5 b6 b7 : Nat) : Nat :=
  b0 + 2 ^ 8 * b1 + 2 ^ 16 * b2 + 2 ^ 24 * b3 +
    2 ^ 32 * b4 + 2 ^ 40 * b5 + 2 ^ 48 * b6 + 2 ^ 56 * b7

/-- Timestamp decoding (`compute.rs:167-170`): `timing_data.chunks_exact(8)`
mapped through `u64::from_ne_bytes`. -/
def deserializeU64s : List Nat → List Nat
  | b0 :: b1 :: b2 :: b3 :: b4 :: b5 :: b6 :: b7 :: rest =>
      fromNeBytes64 b0 b1 b2 b3 b4 b5 b6 b7 :: deserializeU64s rest
  | _ => []

theorem serializeU32s_length (xs : List Nat) :
    (serializeU32s xs).length = 4 * xs.length := by
  induction xs with
  | nil => rfl
  | cons v rest ih =>
      simp [serializeU32s, toNeBytes, ih]
      ring

theorem fromNeBytes_toNeBytes (v : Nat) (h : v < 2 ^ 32) :
    fromNeBytes (v % 2 ^ 8) (v / 2 ^ 8 % 2 ^ 8) (v / 2 ^ 16 % 2 ^ 8)
      (v / 2 ^ 24 % 2 ^ 8) = v := by
  unfold fromNeBytes
  omega

/-- Round trip: decoding the serialization of a list of `u32` values gives
back the list. -/
theorem deserializeU32s_serializeU32s (xs : List Nat)
    (h : ∀ v ∈ xs, v < 2 ^ 32) :
    deserializeU32s (serializeU32s xs) = xs := by
  induction xs with
  | nil => rfl
  | cons v rest ih =>
      have hv : v < 2 ^ 32 := h v (List.mem_cons_self v rest)
      have hrest : ∀ u ∈ rest, u < 2 ^ 32 := fun u hu => h u (List.mem_cons_of_mem v hu)
      simp [serializeU32s, toNeBytes, deserializeU32s, ih hrest, fromNeBytes]
      omega

theorem deserializeU32s_length (bs : List Nat) :
    (deserializeU32s bs).length = bs.length / 4 := by
  induction bs using deserializeU32s.induct with
  | case1 b0 b1 b2 b3 rest ih =>
      simp [deserializeU32s, ih]
      omega
  | case2 bs h =>
      match bs, h with
      | [], _ => rfl
      | [b0], _ => simp [deserializeU32s]
      | [b0, b1], _ => simp [deserializeU32s]
      | [b0, b1, b2], _ => simp [deserializeU32s]
      | b0 :: b1 :: b2 :: b3 :: rest, h => exact absurd rfl (h b0 b1 b2 b3 rest)

theorem deserializeU64s_length (bs : List Nat) :
    (deserializeU64s bs).length = bs.length / 8 := by
  induction bs using deserializeU64s.induct with
  | case1 b0 b1 b2 b3 b4 b5 b6 b7 rest ih =>
      simp [deserializeU64s, ih]
      omega
  | case2 bs h =>
      match bs, h with
      | [], _ => rfl
      | [b0], _ => simp [deserializeU64s]
      | [b0, b1], _ => simp [deserializeU64s]
      | [b0, b1, b2], _ => simp [deserializeU64s]
      | [b0, b1, b2, b3], _ => simp [deserializeU64s]
      | [b0, b1, b2, b3, b4], _ => simp [deserializeU64s]
      | [b0, b1, b2, b3, b4, b5], _ => simp [deserializeU64s]
      | [b0, b1, b2, b3, b4, b5, b6], _ => simp [deserializeU64s]
      | b0 :: b1 :: b2 :: b3 :: b4 :: b5 :: b6 :: b7 :: rest, h =>
          exact absurd rfl (h b0 b1 b2 b3 b4 b5 b6 b7 rest)

/-- The dispatch recorded at `compute.rs:140`:
`cpass.dispatch(src_range.len() as u32 / 64, 1, 1)`.
The `usize` length is truncated to `u32` before the integer division. -/
def dispatchWorkgroups (n : Nat) : Nat × Nat × Nat :=
  (n % U32_MOD / WORKGROUP_SIZE, 1, 1)

/-- Element index `i` is covered by the dispatch over `n` input elements:
some dispatched workgroup `w` contains a local invocation `l` whose global
id `WORKGROUP_SIZE * w + l` equals `i`. -/
def coveredElem (n i : Nat) : Prop :=
  ∃ w, w < (dispatchWorkgroups n).1 ∧ ∃ l, l < WORKGROUP_SIZE ∧
    i = WORKGROUP_SIZE * w + l

/-- The full readback pipeline on the host side for a final storage-buffer
content of `store` (as `u32` values): the GPU-to-GPU copy at
`compute.rs:144-150` moves the full `src.len()`-byte range unchanged, and
`compute.rs:163-166` decodes it in exact 4-byte chunks. -/
def extractedOutput (store : List Nat) : List Nat :=
  deserializeU32s (serializeU32s store)

/-- One printed line of the reducer loop (`compute.rs:175-185`):
`report i v` is `println!("{}: {}", src, out)` and `overflowed i` is
`println!("{}: overflowed", src)`. -/
inductive Line
  | report (idx val : Nat)
  | overflowed (idx : Nat)
deriving DecidableEq, Repr

/-- The reducer loop body (`compute.rs:175-185`): walk the `(src, out)`
pairs with running maximum `m` (initially 0); at the first sentinel print
`overflowed` and break; otherwise report strictly new maxima. -/
def reduceLoop : List (Nat × Nat) → Nat → List Line
  | [], _ => []
  | (i, out) :: rest, m =>
      if out = U32_MAX then [Line.overflowed i]
      else if m < out then Line.report i out :: reduceLoop rest out
      else reduceLoop rest m

/-- The lines printed by the reducer for an output sequence `outs`:
`src_range.zip(result.iter().copied())` pairs 1-based source values with
the decoded outputs (`compute.rs:176`). -/
def reducerLines (outs : List Nat) : List Line :=
  reduceLoop ((List.range' 1 outs.length).zip outs) 0

/-- The values appearing in `report` lines, in print order. -/
def reportedValues : List Line → List Nat
  | [] => []
  | Line.report _ v :: rest => v :: reportedValues rest
  | Line.overflowed _ :: rest => reportedValues rest

/-- Wrapping `u64` subtraction, the semantics of `timings[1] - timings[0]`
at `compute.rs:189`. -/
def sub64 (a b : Nat) : Nat :=
  (a % U64_MOD + (U64_MOD - b % U64_MOD)) % U64_MOD

/-- The elapsed time in nanoseconds (`compute.rs:186-191`):
`(timings[1] - timings[0]) as f64 * f64::from(timestamp_period)`, with the
floating-point scaling modelled exactly over the rationals. -/
def elapsedNanos (t0 t1 : Nat) (period : ℚ) : ℚ :=
  (sub64 t1 t0 : ℚ) * period

/-- Size in bytes of the timestamp-resolve buffer (`compute.rs:113`). -/
def TIMESTAMP_BUFFER_SIZE : Nat := 16

/-- Completion status of one `map_async` request (`compute.rs:156-157`),
`Result<(), wgpu::BufferAsyncError>`. -/
inductive MapResult
  | ok
  | failed
deriving DecidableEq, Repr

/-- The error taxonomy of the spec relevant to the readback phase. -/
inductive RunError
  | mapFailed
deriving DecidableEq, Repr

/-- Observable outcome of the readback phase. -/
structure ReadbackOutcome where
  /-- The `(result, timings)` sequences copied out of the mapped buffers,
  or `none` when nothing was extracted. -/
  extracted : Option (List Nat × List Nat)
  /-- Report / overflow lines printed by the reducer loop. -/
  lines : List Line
  /-- The tick difference of the printed `Took:` line, or `none` when no
  such line is printed. -/
  tookTicks : Option Nat
  /-- The error surfaced by the run, if any. -/
  errorRaised : Option RunError
deriving DecidableEq, Repr

/-- The readback phase (`compute.rs:160-192`): `if let (Ok(()), Ok(())) =
join(buffer_future, timestamp_future).await { ... }` — extraction, the
reducer loop and the timing line run only when both map requests
succeeded; otherwise the function falls through and returns normally. -/
def readbackPhase (bufRes tsRes : MapResult) (dataBytes timingBytes : List Nat) :
    ReadbackOutcome :=
  match bufRes, tsRes with
  | MapResult.ok, MapResult.ok =>
      let result := deserializeU32s dataBytes
      let timings := deserializeU64s timingBytes
      { extracted := some (result, timings)
        lines := reducerLines result
        tookTicks := some (sub64 (timings.getD 1 0) (timings.getD 0 0))
        errorRaised := none }
  | _, _ =>
      { extracted := none, lines := [], tookTicks := none, errorRaised := none }

/-- The power preference passed to `request_adapter` (`compute.rs:28-35`). -/
inductive PowerPreference
  | lowPower
  | highPerformance
deriving DecidableEq, Repr

/-- `wgpu::PowerPreference::default()` (`compute.rs:31`), the
balanced/default preference used when the caller supplies nothing. -/
def defaultPowerPreference : PowerPreference := PowerPreference.lowPower

/-- Modelled from the spec: the caller-supplied options (`super::Options`,
whose definition is outside this file's sources) carry an optional
power-preference selection, "a configuration value selecting device power
preference (optional; defaults when absent)". -/
structure Options where
  powerPreference : Option PowerPreference
deriving DecidableEq, Repr

/-- The power preference actually used by the adapter request: the code
binds the argument as `_options` and never reads it, passing
`wgpu::PowerPreference::default()` unconditionally (`compute.rs:24-31`). -/
def requestedPowerPreference (_options : Options) : PowerPreference :=
  defaultPowerPreference

/-- Every value the loop reports is strictly above the running maximum it
started from. -/
theorem reduceLoop_reported_gt (ps : List (Nat × Nat)) (m : Nat) :
    ∀ v ∈ reportedValues (reduceLoop ps m), m < v := by
  induction ps generalizing m with
  | nil => simp [reduceLoop, reportedValues]
  | cons p rest ih =>
      obtain ⟨i, out⟩ := p
      rw [reduceLoop]
      by_cases hs : out = U32_MAX
      · simp [hs, reportedValues]
      · by_cases hm : m < out
        · rw [if_neg hs, if_pos hm]
          intro v hv
          rw [reportedValues] at hv
          rcases List.mem_cons.mp hv with rfl | hv
          · exact hm
          · exact lt_trans hm (ih out v hv)
        · rw [if_neg hs, if_neg hm]
          exact ih m

/-- The sequence of reported values is strictly increasing. -/
theorem reduceLoop_reported_chain (ps : List (Nat × Nat)) (m : Nat) :
    List.Chain' (· < ·) (reportedValues (reduceLoop ps m)) := by
  induction ps generalizing m with
  | nil => simp [reduceLoop, reportedValues]
  | cons p rest ih =>
      obtain ⟨i, out⟩ := p
      rw [reduceLoop]
      by_cases hs : out = U32_MAX
      · simp [hs, reportedValues]
      · by_cases hm : m < out
        · rw [if_neg hs, if_pos hm, reportedValues]
          refine List.chain'_cons'.mpr ⟨?_, ih out⟩
          intro y hy
          exact reduceLoop_reported_gt rest out y (List.mem_of_mem_head? hy)
        · rw [if_neg hs, if_neg hm]
          exact ih m

theorem getLast?_getD_cons (a m : Nat) (l : List Nat) :
    ((a :: l).getLast?.getD m) = l.getLast?.getD a := by
  induction l generalizing a with
  | nil => rfl
  | cons b t ih =>
      rw [List.getLast?_cons_cons]
      cases h : (b :: t).getLast? with
      | none =>
          exact absurd h (by simp)
      | some x => rfl

/-- The last reported value (default: the starting maximum) is the running
maximum of the outputs scanned before the first sentinel. -/
theorem reduceLoop_reported_getLast (ps : List (Nat × Nat)) (m : Nat) :
    (reportedValues (reduceLoop ps m)).getLast?.getD m =
      ((ps.map Prod.snd).takeWhile (fun v => v ≠ U32_MAX)).foldl Nat.max m := by
  induction ps generalizing m with
  | nil => simp [reduceLoop, reportedValues]
  | cons p rest ih =>
      obtain ⟨i, out⟩ := p
      rw [reduceLoop, List.map_cons, List.takeWhile]
      by_cases hs : out = U32_MAX
      · simp [hs, reportedValues]
      · rw [if_neg hs]
        have hpred : (fun v => decide (v ≠ U32_MAX)) out = true := by
          simp [hs]
        simp only [hpred]
        by_cases hm : m < out
        · have hmax : Nat.max m out = out := by rw [Nat.max_eq_max]; omega
          rw [if_pos hm, reportedValues, getLast?_getD_cons, ih,
            List.foldl_cons, hmax]
        · have hmax : Nat.max m out = m := by rw [Nat.max_eq_max]; omega
          rw [if_neg hm, ih, List.foldl_cons, hmax]

/-- C5: for every output sequence, the reported "new maximum" values are
strictly increasing, and the final reported value (0, the loop's initial
maximum, when nothing is reported) equals the maximum of the outputs
preceding the first overflow sentinel. -/
theorem reducer_monotonic_reports (outs : List Nat) :
    List.Chain' (· < ·) (reportedValues (reducerLines outs)) ∧
    (reportedValues (reducerLines outs)).getLast?.getD 0 =
      (outs.takeWhile (fun v => v ≠ U32_MAX)).foldl Nat.max 0 := by
  constructor
  · exact reduceLoop_reported_chain _ 0
  · have h := reduceLoop_reported_getLast ((List.range' 1 outs.length).zip outs) 0
    rwa [List.map_snd_zip _ _ (by rw [List.length_range'])] at h

/-- If position `p` holds the first sentinel of `outs`, the loop started at
source value `s` prints an overflow line for `s + p` and every report line
carries a source value below `s + p`. -/
theorem reduceLoop_first_sentinel (outs : List Nat) (s m p : Nat)
    (hp : p < outs.length) (hsent : outs.getD p 0 = U32_MAX)
    (hfirst : ∀ q, q < p → outs.getD q 0 ≠ U32_MAX) :
    Line.overflowed (s + p) ∈ reduceLoop ((List.range' s outs.length).zip outs) m ∧
    ∀ i v, Line.report i v ∈ reduceLoop ((List.range' s outs.length).zip outs) m →
      i < s + p := by
  induction outs generalizing s m p with
  | nil => exact absurd hp (Nat.not_lt_zero p)
  | cons o rest ih =>
      rw [List.length_cons, List.range'_succ, List.zip_cons_cons, reduceLoop]
      cases p with
      | zero =>
          have ho : o = U32_MAX := by simpa using hsent
          rw [if_pos ho]
          exact ⟨by simp, by intro i v hv; simp at hv⟩
      | succ p =>
          have ho : o ≠ U32_MAX := by simpa using hfirst 0 (Nat.succ_pos p)
          rw [if_neg ho]
          have hp' : p < rest.length := by simpa using hp
          have hsent' : rest.getD p 0 = U32_MAX := by simpa using hsent
          have hfirst' : ∀ q, q < p → rest.getD q 0 ≠ U32_MAX := by
            intro q hq
            simpa using hfirst (q + 1) (Nat.succ_lt_succ hq)
          by_cases hm : m < o
          · rw [if_pos hm]
            obtain ⟨h1, h2⟩ := ih (s + 1) o p hp' hsent' hfirst'
            refine ⟨?_, ?_⟩
            · have he : s + 1 + p = s + (p + 1) := by omega
              exact List.mem_cons_of_mem _ (he ▸ h1)
            · intro i v hv
              rcases List.mem_cons.mp hv with h | h
              · cases h
                omega
              · have := h2 i v h
                omega
          · rw [if_neg hm]
            obtain ⟨h1, h2⟩ := ih (s + 1) m p hp' hsent' hfirst'
            refine ⟨?_, ?_⟩
            · have he : s + 1 + p = s + (p + 1) := by omega
              exact he ▸ h1
            · intro i v hv
              have := h2 i v hv
              omega

/-- C6: if position `p` (source value `p + 1`) holds the first overflow
sentinel of the output sequence, the reducer prints an overflow line for
that source value and every report line concerns a strictly smaller source
value — nothing is reported past the sentinel. -/
theorem reducer_overflow_short_circuit (outs : List Nat) (p : Nat)
    (hp : p < outs.length) (hsent : outs.getD p 0 = U32_MAX)
    (hfirst : ∀ q, q < p → outs.getD q 0 ≠ U32_MAX) :
    Line.overflowed (1 + p) ∈ reducerLines outs ∧
    ∀ i v, Line.report i v ∈ reducerLines outs → i < 1 + p :=
  reduceLoop_first_sentinel outs 1 0 p hp hsent hfirst

/-- Witness for `reducer_overflow_short_circuit` at the output sequence
`[5, u32::MAX, 7]`, whose first sentinel sits at position 1. -/
theorem reducer_overflow_short_circuit_witness :
    1 < [5, 4294967295, 7].length ∧
    [5, 4294967295, 7].getD 1 0 = U32_MAX ∧
    (∀ q, q < 1 → [5, 4294967295, 7].getD q 0 ≠ U32_MAX) ∧
    (Line.overflowed (1 + 1) ∈ reducerLines [5, 4294967295, 7] ∧
      ∀ i v, Line.report i v ∈ reducerLines [5, 4294967295, 7] → i < 1 + 1) :=
  ⟨by decide, by decide, by decide,
    reducer_overflow_short_circuit [5, 4294967295, 7] 1 (by decide) (by decide)
      (by decide)⟩

/-- C1 counterexample: at the program's own input length `2 ^ 20 - 1`, the
recorded dispatch does not use `ceil(N / 64)` workgroups in X, and the last
input element is not covered by any workgroup. -/
theorem dispatch_not_ceil_cex :
    (dispatchWorkgroups SRC_LEN).1 ≠
      (SRC_LEN + (WORKGROUP_SIZE - 1)) / WORKGROUP_SIZE ∧
    ¬ coveredElem SRC_LEN (SRC_LEN - 1) := by
  constructor
  · decide
  · rintro ⟨w, hw, l, hl, heq⟩
    have h1 : (dispatchWorkgroups SRC_LEN).1 = 16383 := by decide
    have h2 : SRC_LEN = 1048575 := by decide
    rw [h1] at hw
    rw [h2] at heq
    unfold WORKGROUP_SIZE at hl heq
    omega

/-- C1 amended: the dispatch uses `floor(N / 64)` workgroups in the X
dimension (after truncating the length to `u32`) and 1 in Y and Z; an
element is covered by some workgroup exactly when its index lies below
`64 * floor(N / 64)`, so every element is covered only in the
divisible case. -/
theorem dispatch_floor_coverage (n : Nat) (h : n < U32_MOD) :
    (dispatchWorkgroups n).1 = n / WORKGROUP_SIZE ∧
    (dispatchWorkgroups n).2 = (1, 1) ∧
    (∀ i, coveredElem n i ↔ i < WORKGROUP_SIZE * (n / WORKGROUP_SIZE)) ∧
    (WORKGROUP_SIZE ∣ n → ∀ i, i < n → coveredElem n i) := by
  have hmod : n % U32_MOD = n := Nat.mod_eq_of_lt h
  have hX : (dispatchWorkgroups n).1 = n / WORKGROUP_SIZE := by
    simp [dispatchWorkgroups, hmod]
  have hcov : ∀ i, coveredElem n i ↔ i < WORKGROUP_SIZE * (n / WORKGROUP_SIZE) := by
    intro i
    constructor
    · rintro ⟨w, hw, l, hl, rfl⟩
      rw [hX] at hw
      unfold WORKGROUP_SIZE at hw hl ⊢
      omega
    · intro hi
      refine ⟨i / WORKGROUP_SIZE, ?_, i % WORKGROUP_SIZE, ?_, ?_⟩
      · rw [hX]
        unfold WORKGROUP_SIZE at hi ⊢
        omega
      · unfold WORKGROUP_SIZE
        omega
      · unfold WORKGROUP_SIZE at hi ⊢
        omega
  refine ⟨hX, rfl, hcov, ?_⟩
  intro hdvd i hi
  rw [hcov i]
  unfold WORKGROUP_SIZE at hdvd ⊢
  omega

/-- Witness for `dispatch_floor_coverage` at `n = 128`. -/
theorem dispatch_floor_coverage_witness :
    128 < U32_MOD ∧
    ((dispatchWorkgroups 128).1 = 128 / WORKGROUP_SIZE ∧
      (dispatchWorkgroups 128).2 = (1, 1) ∧
      (∀ i, coveredElem 128 i ↔ i < WORKGROUP_SIZE * (128 / WORKGROUP_SIZE)) ∧
      (WORKGROUP_SIZE ∣ 128 → ∀ i, i < 128 → coveredElem 128 i)) :=
  ⟨by decide, dispatch_floor_coverage 128 (by decide)⟩

/-- C2 counterexample: for the one-element input `[5]`, the extracted
output has length 1, not `64 * floor(1 / 64) = 0` — the staging buffer
receives and decodes every input element, not only full workgroups. -/
theorem extraction_not_truncated_cex :
    ¬ ((extractedOutput [5]).length =
        WORKGROUP_SIZE * ((List.length [5]) / WORKGROUP_SIZE)) := by
  decide

/-- C2 amended: for every input of length `N ≥ 1`, the sequence extracted
from the staging buffer has length exactly `N`; trailing elements below a
full workgroup still appear in the output (it is the dispatch, not the
extraction, that skips them). -/
theorem extraction_length_eq_input_length (src : List Nat)
    (_h : 1 ≤ src.length) :
    (extractedOutput src).length = src.length := by
  rw [extractedOutput, deserializeU32s_length, serializeU32s_length]
  omega

/-- Witness for `extraction_length_eq_input_length` at the input `[5]`. -/
theorem extraction_length_eq_input_length_witness :
    1 ≤ (List.length [5]) ∧ (extractedOutput [5]).length = List.length [5] :=
  ⟨by decide, extraction_length_eq_input_length [5] (by decide)⟩

/-- C3 counterexample: when the staging-buffer map request fails, the run
does not surface a `MapFailed` error — the `if let` simply falls through
and the function returns normally with no error raised. -/
theorem readback_no_map_failed_cex :
    ¬ ((readbackPhase MapResult.failed MapResult.ok [] []).errorRaised =
        some RunError.mapFailed ∧
      (readbackPhase MapResult.failed MapResult.ok [] []).extracted = none ∧
      (readbackPhase MapResult.failed MapResult.ok [] []).lines = []) := by
  decide

/-- C3 amended: if either asynchronous map request fails, nothing is
extracted, no line is printed and no timing is reported (all-or-nothing
extraction) — but no `MapFailed` error is raised either; the run returns
silently. -/
theorem readback_all_or_nothing (bufRes tsRes : MapResult)
    (dataBytes timingBytes : List Nat)
    (h : bufRes = MapResult.failed ∨ tsRes = MapResult.failed) :
    readbackPhase bufRes tsRes dataBytes timingBytes =
      { extracted := none, lines := [], tookTicks := none,
        errorRaised := none } := by
  cases bufRes with
  | ok =>
      cases tsRes with
      | ok =>
          rcases h with h | h <;> exact MapResult.noConfusion h
      | failed => rfl
  | failed => cases tsRes <;> rfl

/-- Witness for `readback_all_or_nothing` with a failed staging-buffer map. -/
theorem readback_all_or_nothing_witness :
    (MapResult.failed = MapResult.failed ∨ MapResult.ok = MapResult.failed) ∧
    readbackPhase MapResult.failed MapResult.ok [1, 2] [3] =
      { extracted := none, lines := [], tookTicks := none,
        errorRaised := none } :=
  ⟨Or.inl rfl, readback_all_or_nothing _ _ [1, 2] [3] (Or.inl rfl)⟩

/-- C4 counterexample: a caller asking for the high-performance preference
is ignored — the adapter request still uses the default preference. -/
theorem power_preference_ignored_cex :
    ¬ (requestedPowerPreference
        { powerPreference := some PowerPreference.highPerformance } =
      (some PowerPreference.highPerformance).getD defaultPowerPreference) := by
  decide

/-- C4 amended: the adapter request uses the default power preference for
every caller-supplied options value; the options argument (bound as
`_options`) has no influence on the request. -/
theorem power_preference_always_default (opts opts2 : Options) :
    requestedPowerPreference opts = defaultPowerPreference ∧
    requestedPowerPreference opts = requestedPowerPreference opts2 :=
  ⟨rfl, rfl⟩

/-- C7: under the precondition `tick[0] ≤ tick[1]` (both in `u64` range)
the wrapping subtraction `timings[1] - timings[0]` equals the exact
difference — no underflow — and the elapsed duration
`(tick[1] - tick[0]) * period` is non-negative for a non-negative
timestamp period. -/
theorem elapsed_duration_nonneg (t0 t1 : Nat) (period : ℚ)
    (h01 : t0 ≤ t1) (h1 : t1 < U64_MOD) (hp : 0 ≤ period) :
    sub64 t1 t0 = t1 - t0 ∧
    elapsedNanos t0 t1 period = ((t1 : ℚ) - (t0 : ℚ)) * period ∧
    0 ≤ elapsedNanos t0 t1 period := by
  have hsub : sub64 t1 t0 = t1 - t0 := by
    unfold sub64 U64_MOD
    unfold U64_MOD at h1
    omega
  refine ⟨hsub, ?_, ?_⟩
  · unfold elapsedNanos
    rw [hsub, Nat.cast_sub h01]
  · unfold elapsedNanos
    exact mul_nonneg (Nat.cast_nonneg _) hp

/-- Witness for `elapsed_duration_nonneg` at ticks 3 and 10 with unit
period. -/
theorem elapsed_duration_nonneg_witness :
    3 ≤ 10 ∧ 10 < U64_MOD ∧ (0 : ℚ) ≤ 1 ∧
    (sub64 10 3 = 10 - 3 ∧
      elapsedNanos 3 10 1 = ((10 : ℚ) - (3 : ℚ)) * 1 ∧
      0 ≤ elapsedNanos 3 10 1) :=
  ⟨by decide, by decide, zero_le_one,
    elapsed_duration_nonneg 3 10 1 (by decide) (by decide) zero_le_one⟩

/-- C8: serializing a sequence of `u32` values to native-endian bytes and
decoding the staging buffer's bytes back in exact 4-byte chunks returns
exactly the original sequence; with an identity kernel the extracted
output therefore equals the input. -/
theorem byte_roundtrip (xs : List Nat) (h : ∀ v ∈ xs, v < 2 ^ 32) :
    deserializeU32s (serializeU32s xs) = xs ∧ extractedOutput xs = xs :=
  ⟨deserializeU32s_serializeU32s xs h, deserializeU32s_serializeU32s xs h⟩

/-- Witness for `byte_roundtrip` at `[1, 2, 3]`. -/
theorem byte_roundtrip_witness :
    (∀ v ∈ [1, 2, 3], v < 2 ^ 32) ∧
    (deserializeU32s (serializeU32s [1, 2, 3]) = [1, 2, 3] ∧
      extractedOutput [1, 2, 3] = [1, 2, 3]) :=
  ⟨by decide, byte_roundtrip [1, 2, 3] (by decide)⟩

/-- C9: a mapped timestamp-resolve buffer of 16 bytes decodes, in exact
8-byte chunks, into exactly two tick values, so the accesses `timings[0]`
and `timings[1]` are always in bounds. -/
theorem timestamp_decode_length (bytes : List Nat)
    (h : bytes.length = TIMESTAMP_BUFFER_SIZE) :
    (deserializeU64s bytes).length = 2 ∧
    0 < (deserializeU64s bytes).length ∧
    1 < (deserializeU64s bytes).length := by
  have hlen := deserializeU64s_length bytes
  rw [h] at hlen
  unfold TIMESTAMP_BUFFER_SIZE at hlen
  refine ⟨?_, ?_, ?_⟩ <;> omega

/-- Witness for `timestamp_decode_length` at sixteen zero bytes. -/
theorem timestamp_decode_length_witness :
    (List.replicate 16 0).length = TIMESTAMP_BUFFER_SIZE ∧
    ((deserializeU64s (List.replicate 16 0)).length = 2 ∧
      0 < (deserializeU64s (List.replicate 16 0)).length ∧
      1 < (deserializeU64s (List.replicate 16 0)).length) :=
  ⟨by decide, timestamp_decode_length (List.replicate 16 0) (by decide)⟩

/-- C10: for a final storage-buffer content of `N` `u32` values, the
extracted result has exactly `N` elements — the copy moves the full
`N * 4`-byte range regardless of the dispatched workgroup count — and
every element, touched by a workgroup or not, appears in the output with
the value the storage buffer held for it. -/
theorem extraction_full_length (n : Nat) (store : List Nat)
    (hlen : store.length = n) (hv : ∀ v ∈ store, v < 2 ^ 32) :
    (serializeU32s store).length = 4 * n ∧
    (extractedOutput store).length = n ∧
    ∀ i, (extractedOutput store).getD i 0 = store.getD i 0 := by
  have h := deserializeU32s_serializeU32s store hv
  refine ⟨?_, ?_, ?_⟩
  · rw [serializeU32s_length, hlen]
  · rw [extractedOutput, h, hlen]
  · intro i
    rw [extractedOutput, h]

/-- Witness for `extraction_full_length` at the storage content
`[9, 8, 7]`. -/
theorem extraction_full_length_witness :
    (List.length [9, 8, 7] = 3) ∧ (∀ v ∈ [9, 8, 7], v < 2 ^ 32) ∧
    ((serializeU32s [9, 8, 7]).length = 4 * 3 ∧
      (extractedOutput [9, 8, 7]).length = 3 ∧
      ∀ i, (extractedOutput [9, 8, 7]).getD i 0 = [9, 8, 7].getD i 0) :=
  ⟨by decide, by decide, extraction_full_length 3 [9, 8, 7] (by decide) (by decide)⟩

end ComputeRunner
